import Mathlib

/-!
Verification of the twinicodo pipeline: cookie credential parsing,
snowflake identifier decoding, caption transformation (sort + relative
offsets + text cleanup), paginated fetching, and XML serialization.
Each definition is a shallow embedding of the corresponding Rust function.
-/

namespace Twinicodo

/-! ### Cookie credential parsing (src/lib/twitter.rs, `cookie_map`,
`Cookie::from_str`, `Cookie::fmt`) -/

/-- Whitespace test used by `str::trim`. -/
def isWS (c : Char) : Bool := c.isWhitespace

/-- Model of Rust `str::trim`: drop whitespace from both ends. -/
def trimL (l : List Char) : List Char :=
  ((l.dropWhile isWS).reverse.dropWhile isWS).reverse

/-- Model of Rust `str::split` on a one-character separator: `n` separators
produce `n + 1` pieces, empty pieces kept. -/
def splitChar (c : Char) : List Char → List (List Char)
  | [] => [[]]
  | x :: xs =>
    if x = c then [] :: splitChar c xs
    else
      match splitChar c xs with
      | [] => [[x]]
      | p :: ps => (x :: p) :: ps

/-- Model of `str::trim_end_matches(';')`: drop all trailing semicolons. -/
def trimEndSemi (l : List Char) : List Char :=
  (l.reverse.dropWhile (fun c => c = ';')).reverse

/-- One piece of the cookie header: `piece.trim().trim_end_matches(';')
.split("=").next_tuple()` — the first two `=`-separated fragments. -/
def parsePiece (p : List Char) : Option (String × String) :=
  match splitChar '=' (trimEndSemi (trimL p)) with
  | k :: v :: _ => some (⟨k⟩, ⟨v⟩)
  | _ => none

/-- Model of `cookie_map`: the key/value pairs in input order (the Rust
code collects them into a `HashMap`, where a later pair overwrites an
earlier one with the same key — see `mapGet`). -/
def cookiePairs (s : String) : List (String × String) :=
  (splitChar ';' s.data).filterMap parsePiece

/-- `HashMap` lookup after collecting `cookiePairs`: the last pair with
the given key wins, matching insertion-overwrite semantics. -/
def mapGet (k : String) : List (String × String) → Option String
  | [] => none
  | (k2, v) :: rest =>
    match mapGet k rest with
    | some v2 => some v2
    | none => if k2 = k then some v else none

structure Cookie where
  auth_token : String
  twitter_sess : String
  ct0 : String
deriving DecidableEq, Repr

inductive CookieError where
  | AuthTokenMissing
  | TwitterSessMissing
  | Ct0Missing
deriving DecidableEq, Repr

/-- Model of `Cookie::from_str`. -/
def cookieFromStr (s : String) : Except CookieError Cookie :=
  let map := cookiePairs s
  match mapGet "auth_token" map with
  | none => .error .AuthTokenMissing
  | some auth_token =>
    match mapGet "_twitter_sess" map with
    | none => .error .TwitterSessMissing
    | some twitter_sess =>
      match mapGet "ct0" map with
      | none => .error .Ct0Missing
      | some ct0 => .ok ⟨auth_token, twitter_sess, ct0⟩

/-- Model of `Cookie::fmt` (the `Display` implementation). -/
def cookieToString (c : Cookie) : String :=
  "auth_token=" ++ c.auth_token ++ "; _twitter_sess=" ++ c.twitter_sess ++
    "; ct0=" ++ c.ct0

/-! ### Snowflake identifier decoding (src/lib/twitter.rs,
`TweetID::datetime`) -/

/-- Numeric value of a digit string (most significant first). -/
def digitsVal (l : List Char) : Nat :=
  l.foldl (fun a c => a * 10 + (c.toNat - '0'.toNat)) 0

/-- Parse a non-empty all-digit string. -/
def digitsToNat (l : List Char) : Option Nat :=
  if l ≠ [] ∧ l.all Char.isDigit then some (digitsVal l) else none

/-- Model of Rust `i64::from_str`: optional sign, one or more digits,
value must fit in the 64-bit signed range, otherwise `Err`. -/
def parseI64 (s : String) : Option Int :=
  match s.data with
  | '+' :: rest =>
    (digitsToNat rest).bind fun n =>
      if n ≤ 9223372036854775807 then some (n : Int) else none
  | '-' :: rest =>
    (digitsToNat rest).bind fun n =>
      if n ≤ 9223372036854775808 then some (-(n : Int)) else none
  | l =>
    (digitsToNat l).bind fun n =>
      if n ≤ 9223372036854775807 then some (n : Int) else none

/-- Model of `TweetID::datetime`, returning milliseconds since the Unix
epoch.  `>> 22` on `i64` is an arithmetic shift, i.e. floor division by
`2 ^ 22 = 4194304`; the subsequent `i64` addition cannot overflow since
`(i64::MAX >> 22) + 1288834974657 < 2 ^ 63`. -/
def tweetIDdatetime (s : String) : Option Int :=
  (parseI64 s).map fun n => Int.fdiv n 4194304 + 1288834974657

/-! ### Text cleanup (src/lib/iter.rs, `cleanup`)

`cleanup` applies `RE_HASHTAG = #[\w_]+[ \t]*` and then
`RE_URL = (?:https?|ftp)://[\n\S]+` with `replace_all(_, "")`, trimming
after each pass.  Both patterns are modelled by an explicit left-to-right
scan with maximal munch, which coincides with the regex engine's
leftmost-first greedy semantics for these patterns (restricted to ASCII
word characters, which covers every input considered here). -/

/-- ASCII restriction of the regex class `[\w_]`. -/
def isWordChar (c : Char) : Bool := c.isAlphanum || c = '_'

/-- The regex class `[ \t]`. -/
def isSpTab (c : Char) : Bool := c = ' ' || c = '\t'

/-- The regex class `[\n\S]`: a newline or any non-whitespace character. -/
def isUrlChar (c : Char) : Bool := c = '\n' || !c.isWhitespace

/-- Try to match `#[\w_]+[ \t]*` at the head of the list; on success
return the remainder after the match. -/
def hashtagMatch (l : List Char) : Option (List Char) :=
  match l with
  | '#' :: rest =>
    if (rest.takeWhile isWordChar).isEmpty then none
    else some ((rest.dropWhile isWordChar).dropWhile isSpTab)
  | _ => none

/-- Try to match `(?:https?|ftp)://` at the head of the list (the regex
alternation prefers `https` over `http`); on success return the
remainder. -/
def urlSchemeRest (l : List Char) : Option (List Char) :=
  if List.isPrefixOf "https://".data l then some (l.drop 8)
  else if List.isPrefixOf "http://".data l then some (l.drop 7)
  else if List.isPrefixOf "ftp://".data l then some (l.drop 6)
  else none

/-- Try to match `(?:https?|ftp)://[\n\S]+` at the head of the list. -/
def urlMatch (l : List Char) : Option (List Char) :=
  (urlSchemeRest l).bind fun rest =>
    if (rest.takeWhile isUrlChar).isEmpty then none
    else some (rest.dropWhile isUrlChar)

/-- `replace_all` for the hashtag pattern, scanning left to right.  The
fuel argument only bounds the recursion; every successful match consumes
at least two characters and every failure advances one character, so
`l.length` fuel is never exhausted. -/
def stripHashtagsF : Nat → List Char → List Char
  | 0, l => l
  | _ + 1, [] => []
  | fuel + 1, c :: cs =>
    match hashtagMatch (c :: cs) with
    | some rest => stripHashtagsF fuel rest
    | none => c :: stripHashtagsF fuel cs

def stripHashtags (l : List Char) : List Char := stripHashtagsF l.length l

/-- `replace_all` for the URL pattern, scanning left to right; fuel as in
`stripHashtagsF` (a match consumes at least seven characters). -/
def stripURLsF : Nat → List Char → List Char
  | 0, l => l
  | _ + 1, [] => []
  | fuel + 1, c :: cs =>
    match urlMatch (c :: cs) with
    | some rest => stripURLsF fuel rest
    | none => c :: stripURLsF fuel cs

def stripURLs (l : List Char) : List Char := stripURLsF l.length l

/-- Model of `cleanup`: strip hashtags, trim, strip URLs, trim. -/
def cleanup (s : String) : String :=
  ⟨trimL (stripURLs (trimL (stripHashtags s.data)))⟩

/-! ### Caption transformation (src/lib/iter.rs,
`TweetToChatIterator::next`, `SortedTweetToChat::map_to_sorted_chats`) -/

structure User where
  id : Nat
  id_str : String
  name : String
  screen_name : String
deriving DecidableEq, Repr

/-- Model of `Tweet` (the open `extra` bag of unmodelled JSON fields is
omitted; no operation considered here reads it).  `created_at` is the
decoded creation instant in seconds, `none` when decoding failed. -/
structure Tweet where
  id : String
  created_at : Option Nat
  full_text : String
  user_id : String
  user : Option User
deriving DecidableEq, Repr

structure Chat where
  date : Nat
  vpos : Nat
  user_id : Option String
  id : Option String
  mail : Option String
  content : String
deriving DecidableEq, Repr

/-- `t.created_at.map(|d| d.timestamp()).unwrap_or(0)`. -/
def dateOf (t : Tweet) : Nat := t.created_at.getD 0

/-- One step of `TweetToChatIterator::next` with accumulator `origin`
(the iterator's second field, initially 0). -/
def chatOf (origin : Nat) (t : Tweet) : Chat :=
  { date := dateOf t
    vpos := if origin = 0 then 0 else dateOf t - origin
    user_id := t.user.map fun u => u.screen_name
    id := some t.id
    mail := none
    content := cleanup t.full_text }

/-- The full run of `TweetToChatIterator`: the origin starts at 0 and is
set to the current record's date whenever it is still 0. -/
def mapToChatAux (origin : Nat) : List Tweet → List Chat
  | [] => []
  | t :: ts =>
    chatOf origin t :: mapToChatAux (if origin = 0 then dateOf t else origin) ts

/-- Model of `map_to_chat`. -/
def mapToChat (ts : List Tweet) : List Chat := mapToChatAux 0 ts

/-- The comparator `a.created_at.cmp(&b.created_at)` on
`Option<DateTime>`: `None` sorts before every `Some`. -/
def optLE : Option Nat → Option Nat → Bool
  | none, _ => true
  | some _, none => false
  | some a, some b => decide (a ≤ b)

def optLEP (x y : Option Nat) : Prop := optLE x y = true

instance : DecidableRel optLEP := fun x y => by unfold optLEP; infer_instance

def tweetLE (a b : Tweet) : Prop := optLE a.created_at b.created_at = true

instance : DecidableRel tweetLE := fun a b => by unfold tweetLE; infer_instance

instance : IsTotal Tweet tweetLE := by
  constructor
  intro a b
  unfold tweetLE
  cases a.created_at <;> cases b.created_at <;> simp [optLE] <;> omega

instance : IsTrans Tweet tweetLE := by
  constructor
  intro a b c
  unfold tweetLE
  cases a.created_at <;> cases b.created_at <;> cases c.created_at <;>
    simp [optLE] <;> omega

instance : IsAntisymm (Option Nat) optLEP := by
  constructor
  intro a b h1 h2
  cases a <;> cases b <;> simp [optLEP, optLE] at h1 h2 ⊢ <;> omega

/-- Model of `map_to_sorted_chats`'s sorting step,
`v.sort_by(|a, b| a.created_at.cmp(&b.created_at))`: a stable sort by
the optional creation instant (insertion sort inserting earlier elements
in front of later equal ones is stable, like Rust's `sort_by`). -/
def sortTweets (ts : List Tweet) : List Tweet := List.insertionSort tweetLE ts

/-- Model of `map_to_sorted_chats`. -/
def mapToSortedChats (ts : List Tweet) : List Chat := mapToChat (sortTweets ts)

/-- The vpos sequence produced from a date sequence by the iterator. -/
def vposList (o : Nat) : List Nat → List Nat
  | [] => []
  | d :: ds => (if o = 0 then 0 else d - o) :: vposList (if o = 0 then d else o) ds

/-! ### Paginated fetching (src/lib/twitter.rs, `TwitterClient::search_tweets`,
`RawResponse::next_cursor`).  The network is modelled as an oracle giving
the decoded `RawResponse` of the `k`-th issued request; the `try_unfold`
state is `{cursor, finished}` exactly as in the source. -/

structure EntryCursor where
  value : String
deriving DecidableEq, Repr

structure EntryContentOperation where
  cursor : EntryCursor
deriving DecidableEq, Repr

structure EntryContent where
  operation : Option EntryContentOperation
deriving DecidableEq, Repr

structure Entry where
  entry_id : String
  sort_index : String
  content : EntryContent
deriving DecidableEq, Repr

structure AddEntries where
  entries : List Entry
deriving DecidableEq, Repr

structure ReplaceEntry where
  entry_id_to_replace : String
  entry : Entry
deriving DecidableEq, Repr

structure Instruction where
  add_entries : Option AddEntries
  replace_entry : Option ReplaceEntry
deriving DecidableEq, Repr

structure Timeline where
  id : String
  instructions : List Instruction
deriving DecidableEq, Repr

structure RawTweet where
  id_str : String
  full_text : String
  user_id : Nat
  user_id_str : String
deriving DecidableEq, Repr

/-- `globalObjects`: the tweet and user maps, modelled as association
lists (only emptiness and lookups are consumed). -/
structure GlobalObjects where
  tweets : List (String × RawTweet)
  users : List (String × User)
deriving DecidableEq, Repr

structure RawResponse where
  global_objects : GlobalObjects
  timeline : Timeline
deriving DecidableEq, Repr

/-- Model of `RawResponse::next_cursor`: scan the instructions, take
`addEntries.entries` or the single `replaceEntry.entry`, find the first
entry whose id is `sq-cursor-bottom`, and read its operation's cursor
value (none when that entry has no operation). -/
def nextCursor (r : RawResponse) : Option String :=
  ((((r.timeline.instructions.filterMap fun i =>
      ((i.add_entries.map fun e => e.entries).or
        (i.replace_entry.map fun e => [e.entry]))).flatten).find?
    fun e => e.entry_id == "sq-cursor-bottom").bind
      fun e => e.content.operation).map
    fun o => o.cursor.value

/-- Decoding of one raw tweet (`impl From<RawTweet> for Tweet`): the
creation instant in seconds is the decoded millisecond instant divided
by 1000 (`DateTime::timestamp`). -/
def tweetFromRaw (user : Option User) (t : RawTweet) : Tweet :=
  { id := t.id_str
    created_at := (tweetIDdatetime t.id_str).map fun ms => (Int.fdiv ms 1000).toNat
    full_text := t.full_text
    user_id := t.user_id_str
    user := user }

/-- `HashMap::get` on the user map (last insertion wins, as in
`mapGet`). -/
def mapGetUser (k : String) : List (String × User) → Option User
  | [] => none
  | (k2, v) :: rest =>
    match mapGetUser k rest with
    | some v2 => some v2
    | none => if k2 = k then some v else none

/-- Model of `impl From<RawResponse> for Response`: decode every tweet of
the page, resolving its author in the page's user map (a missed lookup
leaves the author unset). -/
def rawToResponse (r : RawResponse) : List Tweet :=
  r.global_objects.tweets.map fun p =>
    tweetFromRaw (mapGetUser p.2.user_id_str r.global_objects.users) p.2

/-- The `try_unfold` state of `search_tweets`. -/
structure FetchState where
  cursor : Option String
  finished : Bool
deriving DecidableEq, Repr

/-- A page terminates pagination when it has no tweets or no locatable
cursor. -/
def terminatesPage (r : RawResponse) : Bool :=
  r.global_objects.tweets.isEmpty || (nextCursor r).isNone

/-- One iteration of the `try_unfold` closure: when already finished,
yield nothing (and issue no request); otherwise the response to the
issued request is decoded and yielded, the cursor updated, and the state
marked finished exactly when the page terminates pagination. -/
def fetchStep (st : FetchState) (resp : RawResponse) :
    Option (List Tweet × FetchState) :=
  if st.finished then none
  else some (rawToResponse resp, ⟨nextCursor resp, terminatesPage resp⟩)

/-- The state before iteration `n`, driven by the oracle. -/
def fetchRun (oracle : Nat → RawResponse) : Nat → FetchState
  | 0 => ⟨none, false⟩
  | n + 1 =>
    match fetchStep (fetchRun oracle n) (oracle n) with
    | some (_, st) => st
    | none => fetchRun oracle n

/-- The stream item produced at iteration `n` (none = end of stream). -/
def fetchOut (oracle : Nat → RawResponse) (n : Nat) : Option (List Tweet) :=
  (fetchStep (fetchRun oracle n) (oracle n)).map fun p => p.1

/-- Whether iteration `n` issues a network request: exactly when the
state is not yet finished. -/
def fetchRequested (oracle : Nat → RawResponse) (n : Nat) : Bool :=
  !(fetchRun oracle n).finished

/-! ### XML serialization (src/lib/nicodo/xml.rs, `write_xml`).  Each
`write_event` call is recorded as one event; the in-memory sink never
fails, so the `Result` is `Ok` exactly when the Rust function performs
all of its writes successfully. -/

inductive XmlError
deriving DecidableEq

inductive XEvent where
  | decl (version encoding : String)
  | startElem (name : String) (attrs : List (String × String))
  | emptyElem (name : String) (attrs : List (String × String))
  | text (s : String)
  | endElem (name : String)
deriving DecidableEq, Repr

/-- The attributes pushed for one `chat` element, in push order.  The
source pushes the identifier under the attribute name `"mail"` (xml.rs
line 56), the same name used for the mail flag. -/
def chatAttrs (no : Nat) (c : Chat) : List (String × String) :=
  [("date", toString c.date), ("vpos", toString c.vpos),
    ("no", toString (no + 1))]
  ++ (match c.user_id with
      | some u => [("user_id", u)]
      | none => [])
  ++ (match c.mail with
      | some m => [("mail", m)]
      | none => [])
  ++ (match c.id with
      | some i => [("mail", i)]
      | none => [])

/-- The events of one iteration of the per-record loop: a record with
empty body text is skipped entirely. -/
def chatBlock (p : Nat × Chat) : List XEvent :=
  if p.2.content = "" then []
  else [.startElem "chat" (chatAttrs p.1 p.2), .text p.2.content,
    .endElem "chat"]

/-- The events of the per-record loop: records with empty body text are
skipped, but their 1-based position is still consumed by `enumerate`. -/
def chatLoopEvents (chats : List Chat) : List XEvent :=
  chats.enum.flatMap chatBlock

/-- Model of `write_xml`: with zero records, return before any write;
otherwise emit declaration, `packet` start, `thread` and `view_counter`
elements, the per-record loop, and the `packet` end. -/
def writeXml (chats : List Chat) : Except XmlError (List XEvent) :=
  if chats.length = 0 then .ok []
  else
    .ok ([.decl "1.0" "utf-8", .startElem "packet" [],
      .emptyElem "thread"
        [("last_res", toString (chats.length - 1)), ("ticket", "")],
      .emptyElem "view_counter" [("video", "0")]]
      ++ chatLoopEvents chats ++ [.endElem "packet"])

/-- The event list written by `writeXml` (total, since the sink is
infallible). -/
def xmlEvents (chats : List Chat) : List XEvent :=
  match writeXml chats with
  | .ok evs => evs
  | .error _ => []

/-- The attribute lists of the emitted `chat` elements, in document
order. -/
def chatStarts (evs : List XEvent) : List (List (String × String)) :=
  evs.filterMap fun e =>
    match e with
    | .startElem "chat" attrs => some attrs
    | _ => none

/-- Reassemble the fragments produced by `splitChar '='`. -/
def joinEq : List (List Char) → List Char
  | [] => []
  | [p] => p
  | p :: ps => p ++ '=' :: joinEq ps

theorem mapToChatAux_date (o : Nat) (ts : List Tweet) :
    (mapToChatAux o ts).map Chat.date = ts.map dateOf := by
  induction ts generalizing o with
  | nil => rfl
  | cons t ts ih => simp [mapToChatAux, chatOf, ih]

theorem mapToChatAux_vpos (o : Nat) (ts : List Tweet) :
    (mapToChatAux o ts).map Chat.vpos = vposList o (ts.map dateOf) := by
  induction ts generalizing o with
  | nil => rfl
  | cons t ts ih => simp [mapToChatAux, chatOf, vposList, ih]

theorem mapToChatAux_of_ne_zero (o : Nat) (ho : o ≠ 0) (ts : List Tweet) :
    mapToChatAux o ts = ts.map (chatOf o) := by
  induction ts with
  | nil => rfl
  | cons t ts ih => simp [mapToChatAux, ho, ih]

theorem sortTweets_sorted (ts : List Tweet) :
    List.Sorted tweetLE (sortTweets ts) :=
  List.sorted_insertionSort tweetLE ts

theorem sortTweets_perm (ts : List Tweet) : List.Perm (sortTweets ts) ts :=
  List.perm_insertionSort tweetLE ts

theorem sortTweets_map_sorted (ts : List Tweet) :
    List.Sorted optLEP ((sortTweets ts).map Tweet.created_at) :=
  List.Pairwise.map Tweet.created_at (fun _ _ h => h) (sortTweets_sorted ts)

theorem fetchRun_unfinished (oracle : Nat → RawResponse) :
    ∀ j, (∀ k, k < j → terminatesPage (oracle k) = false) →
      (fetchRun oracle j).finished = false := by
  intro j
  induction j with
  | zero => intro _; rfl
  | succ n ih =>
    intro h
    have hn := ih fun k hk => h k (Nat.lt_succ_of_lt hk)
    simp [fetchRun, fetchStep, hn, h n (Nat.lt_succ_self n)]

theorem fetchRun_absorb (oracle : Nat → RawResponse) (n : Nat)
    (h : (fetchRun oracle n).finished = true) :
    ∀ d, (fetchRun oracle (n + d)).finished = true := by
  intro d
  induction d with
  | zero => exact h
  | succ m ih =>
    have : fetchRun oracle (n + m + 1) = fetchRun oracle (n + m) := by
      simp [fetchRun, fetchStep, ih]
    rw [Nat.add_succ, this]
    exact ih

/-- C6: if the `i`-th fetched page is the first that has no tweets or no
locatable cursor, it is still yielded (as the final stream item); every
iteration up to and including `i` issues a request, and after it the
finished state is absorbing: no request is ever issued again and the
stream yields nothing further. -/
theorem fetch_termination (oracle : Nat → RawResponse) (i : Nat)
    (hbefore : ∀ j, j < i → terminatesPage (oracle j) = false)
    (hterm : terminatesPage (oracle i) = true) :
    fetchOut oracle i = some (rawToResponse (oracle i))
    ∧ (∀ j, j ≤ i → fetchRequested oracle j = true)
    ∧ (∀ j, i < j → fetchRequested oracle j = false ∧ fetchOut oracle j = none) := by
  have hunf : ∀ j, j ≤ i → (fetchRun oracle j).finished = false := fun j hj =>
    fetchRun_unfinished oracle j fun k hk => hbefore k (Nat.lt_of_lt_of_le hk hj)
  have hfin1 : (fetchRun oracle (i + 1)).finished = true := by
    simp [fetchRun, fetchStep, hunf i (Nat.le_refl i), hterm]
  have hfin : ∀ j, i < j → (fetchRun oracle j).finished = true := by
    intro j hj
    have := fetchRun_absorb oracle (i + 1) hfin1 (j - (i + 1))
    rwa [Nat.add_sub_cancel' hj] at this
  refine ⟨?_, fun j hj => ?_, fun j hj => ⟨?_, ?_⟩⟩
  · simp [fetchOut, fetchStep, hunf i (Nat.le_refl i)]
  · simp [fetchRequested, hunf j hj]
  · simp [fetchRequested, hfin j hj]
  · simp [fetchOut, fetchStep, hfin j hj]

theorem fetch_termination_witness :
    (∀ j, j < 0 →
      terminatesPage ((fun _ => (⟨⟨[], []⟩, ⟨"t", []⟩⟩ : RawResponse)) j) = false)
    ∧ terminatesPage (⟨⟨[], []⟩, ⟨"t", []⟩⟩ : RawResponse) = true
    ∧ (fetchOut (fun _ => (⟨⟨[], []⟩, ⟨"t", []⟩⟩ : RawResponse)) 0
        = some (rawToResponse (⟨⟨[], []⟩, ⟨"t", []⟩⟩ : RawResponse))
      ∧ (∀ j, j ≤ 0 →
          fetchRequested (fun _ => (⟨⟨[], []⟩, ⟨"t", []⟩⟩ : RawResponse)) j = true)
      ∧ (∀ j, 0 < j →
          fetchRequested (fun _ => (⟨⟨[], []⟩, ⟨"t", []⟩⟩ : RawResponse)) j = false
          ∧ fetchOut (fun _ => (⟨⟨[], []⟩, ⟨"t", []⟩⟩ : RawResponse)) j = none)) :=
  ⟨fun j h => absurd h (Nat.not_lt_zero j), by decide,
    fetch_termination _ 0 (fun j h => absurd h (Nat.not_lt_zero j)) (by decide)⟩

theorem optLE_refl (x : Option Nat) : optLE x x = true := by
  cases x <;> simp [optLE]

theorem created_at_ne_of_not_tweetLE {a b : Tweet} (h : ¬ tweetLE a b) :
    b.created_at ≠ a.created_at := by
  intro heq
  exact h (by unfold tweetLE; rw [heq]; exact optLE_refl _)

/-- Inserting `a` only adds `a` to the key-`k` records, in front of all
of them when `a` has key `k` (every record skipped by the insertion has a
strictly smaller key). -/
theorem filter_orderedInsert (k : Option Nat) (a : Tweet) (l : List Tweet) :
    (List.orderedInsert tweetLE a l).filter (fun t => t.created_at == k)
      = if a.created_at = k
        then a :: l.filter (fun t => t.created_at == k)
        else l.filter (fun t => t.created_at == k) := by
  induction l with
  | nil =>
    by_cases hak : a.created_at = k <;> simp [List.orderedInsert, hak]
  | cons b l ih =>
    by_cases hab : tweetLE a b
    · rw [List.orderedInsert_of_le _ _ hab]
      by_cases hak : a.created_at = k <;> simp [List.filter_cons, hak]
    · have hne : b.created_at ≠ a.created_at := created_at_ne_of_not_tweetLE hab
      have hins : List.orderedInsert tweetLE a (b :: l)
          = b :: List.orderedInsert tweetLE a l := by
        simp [List.orderedInsert, hab]
      rw [hins]
      by_cases hak : a.created_at = k
      · have hbk : ¬ b.created_at = k := fun h => hne (h.trans hak.symm)
        simp [List.filter_cons, hak, hbk, ih]
      · by_cases hbk : b.created_at = k <;> simp [List.filter_cons, hak, hbk, ih]

/-- Stability of the sort: for every key, the key-`k` records of the
sorted list are exactly those of the input, in input order. -/
theorem filter_sortTweets (k : Option Nat) (ts : List Tweet) :
    (sortTweets ts).filter (fun t => t.created_at == k)
      = ts.filter (fun t => t.created_at == k) := by
  unfold sortTweets
  induction ts with
  | nil => rfl
  | cons t ts ih =>
    rw [List.insertionSort, filter_orderedInsert]
    by_cases h : t.created_at = k <;> simp [List.filter_cons, h, ih]

/-- C1: for any input list of source records whose creation instants are
100, 50 and 150 seconds, in any order, the transformation produces
records with dates [50, 100, 150] and relative offsets [0, 50, 100]. -/
theorem transform_perm_100_50_150 (ts : List Tweet)
    (h : List.Perm (ts.map Tweet.created_at) [some 100, some 50, some 150]) :
    (mapToSortedChats ts).map Chat.date = [50, 100, 150]
    ∧ (mapToSortedChats ts).map Chat.vpos = [0, 50, 100] := by
  have hperm : List.Perm ((sortTweets ts).map Tweet.created_at)
      [some 50, some 100, some 150] :=
    (((sortTweets_perm ts).map Tweet.created_at).trans h).trans (by decide)
  have hkeys : (sortTweets ts).map Tweet.created_at
      = [some 50, some 100, some 150] :=
    List.eq_of_perm_of_sorted hperm (sortTweets_map_sorted ts) (by decide)
  have hdates : (sortTweets ts).map dateOf = [50, 100, 150] := by
    have h2 := congrArg (List.map (fun x : Option Nat => x.getD 0)) hkeys
    simpa [List.map_map, dateOf, Function.comp] using h2
  constructor
  · rw [mapToSortedChats, mapToChat, mapToChatAux_date, hdates]
  · rw [mapToSortedChats, mapToChat, mapToChatAux_vpos, hdates]
    decide

theorem transform_perm_100_50_150_witness :
    List.Perm
      (([⟨"1", some 100, "", "u", none⟩, ⟨"2", some 50, "", "u", none⟩,
          ⟨"3", some 150, "", "u", none⟩] : List Tweet).map Tweet.created_at)
      [some 100, some 50, some 150]
    ∧ ((mapToSortedChats
          [⟨"1", some 100, "", "u", none⟩, ⟨"2", some 50, "", "u", none⟩,
            ⟨"3", some 150, "", "u", none⟩]).map Chat.date = [50, 100, 150]
      ∧ (mapToSortedChats
          [⟨"1", some 100, "", "u", none⟩, ⟨"2", some 50, "", "u", none⟩,
            ⟨"3", some 150, "", "u", none⟩]).map Chat.vpos = [0, 50, 100]) :=
  ⟨List.Perm.refl _, transform_perm_100_50_150 _ (List.Perm.refl _)⟩

/-- C2 (counterexample): for two records with creation instants 0 and
100 (already in sorted order), the claim predicts relative offsets
[0, 100], but the iterator's origin sentinel stays 0 after consuming the
first record, so the second record also gets offset 0 and becomes the
origin itself. -/
theorem transform_origin_cex :
    (mapToSortedChats
        [⟨"1", some 0, "", "u", none⟩, ⟨"2", some 100, "", "u", none⟩]).map
      Chat.vpos = [0, 0]
    ∧ (mapToSortedChats
        [⟨"1", some 0, "", "u", none⟩, ⟨"2", some 100, "", "u", none⟩]).map
      Chat.vpos ≠ [0, 100] := by
  constructor <;> decide

/-- C2 (amended): for every non-empty input list, the transformation
stable-sorts by the optional creation instant (absent instants sort
first, and an absent instant yields date 0); the first transformed
record has relative offset 0; and provided the first sorted record's
instant is nonzero, that instant is the origin and every record's offset
is its date minus the origin.  (When the first instant is 0 the origin
sentinel stays unset and the origin becomes the first nonzero instant
instead — see the counterexample.) -/
theorem transform_sort_and_origin (ts : List Tweet) (hne : ts ≠ []) :
    List.Perm (sortTweets ts) ts
    ∧ List.Sorted optLEP ((sortTweets ts).map Tweet.created_at)
    ∧ (∀ k : Option Nat,
        (sortTweets ts).filter (fun t => t.created_at == k)
          = ts.filter (fun t => t.created_at == k))
    ∧ ∀ c0 cs, mapToSortedChats ts = c0 :: cs →
        c0.vpos = 0
        ∧ (c0.date ≠ 0 →
            ∀ c ∈ cs, c0.date ≤ c.date ∧ c.vpos = c.date - c0.date) := by
  refine ⟨sortTweets_perm ts, sortTweets_map_sorted ts,
    fun k => filter_sortTweets k ts, ?_⟩
  intro c0 cs heq
  rw [mapToSortedChats, mapToChat] at heq
  cases hs : sortTweets ts with
  | nil => rw [hs] at heq; exact absurd heq (by simp [mapToChatAux])
  | cons t0 rest =>
    rw [hs] at heq
    rw [show mapToChatAux 0 (t0 :: rest)
        = chatOf 0 t0 :: mapToChatAux (dateOf t0) rest from by
      simp [mapToChatAux]] at heq
    obtain ⟨hc0, hcs⟩ := List.cons_eq_cons.mp heq
    have hvpos0 : c0.vpos = 0 := by rw [← hc0]; simp [chatOf]
    refine ⟨hvpos0, ?_⟩
    intro hd0 c hc
    have hdate0 : c0.date = dateOf t0 := by rw [← hc0]; simp [chatOf]
    rw [hdate0] at hd0 ⊢
    rw [← hcs, mapToChatAux_of_ne_zero _ hd0] at hc
    obtain ⟨t, ht, hct⟩ := List.mem_map.mp hc
    have hsor := sortTweets_sorted ts
    rw [hs] at hsor
    have h0t : tweetLE t0 t := (List.sorted_cons.mp hsor).1 t ht
    have hle : dateOf t0 ≤ dateOf t := by
      unfold tweetLE at h0t
      cases h0 : t0.created_at with
      | none => exact absurd (by simp [dateOf, h0]) hd0
      | some d0 =>
        cases h1 : t.created_at with
        | none => rw [h0, h1] at h0t; simp [optLE] at h0t
        | some d1 =>
          rw [h0, h1] at h0t
          simp only [optLE, decide_eq_true_eq] at h0t
          simpa [dateOf, h0, h1] using h0t
    refine ⟨?_, ?_⟩
    · rw [← hct]; simpa [chatOf] using hle
    · rw [← hct]; simp [chatOf, hd0]

theorem transform_sort_and_origin_witness :
    (([⟨"1", some 100, "", "u", none⟩, ⟨"2", some 50, "", "u", none⟩]
        : List Tweet) ≠ [])
    ∧ (List.Perm
        (sortTweets [⟨"1", some 100, "", "u", none⟩, ⟨"2", some 50, "", "u", none⟩])
        [⟨"1", some 100, "", "u", none⟩, ⟨"2", some 50, "", "u", none⟩]
      ∧ List.Sorted optLEP
          ((sortTweets
            [⟨"1", some 100, "", "u", none⟩, ⟨"2", some 50, "", "u", none⟩]).map
            Tweet.created_at)
      ∧ (∀ k : Option Nat,
          (sortTweets
            [⟨"1", some 100, "", "u", none⟩, ⟨"2", some 50, "", "u", none⟩]).filter
              (fun t => t.created_at == k)
            = ([⟨"1", some 100, "", "u", none⟩,
                ⟨"2", some 50, "", "u", none⟩] : List Tweet).filter
              (fun t => t.created_at == k))
      ∧ ∀ c0 cs,
          mapToSortedChats
            [⟨"1", some 100, "", "u", none⟩, ⟨"2", some 50, "", "u", none⟩]
            = c0 :: cs →
          c0.vpos = 0
          ∧ (c0.date ≠ 0 →
              ∀ c ∈ cs, c0.date ≤ c.date ∧ c.vpos = c.date - c0.date)) :=
  ⟨by decide, transform_sort_and_origin _ (by decide)⟩

/-- C3: identifier decoding treats the identifier as a 64-bit integer and
returns `(identifier >> 22) + 1288834974657` milliseconds since the Unix
epoch; the identifier `"1289960487912783872"` decodes to exactly
`1596385521282` ms, and an unparseable identifier makes decoding fail. -/
theorem tweet_id_decode :
    tweetIDdatetime "1289960487912783872" = some 1596385521282
    ∧ (∀ s : String, parseI64 s = none → tweetIDdatetime s = none)
    ∧ (∀ (s : String) (n : Int), parseI64 s = some n →
        tweetIDdatetime s = some (Int.fdiv n 4194304 + 1288834974657)) := by
  refine ⟨by decide, fun s h => ?_, fun s n h => ?_⟩
  · simp [tweetIDdatetime, h]
  · simp [tweetIDdatetime, h]

theorem tweet_id_decode_witness :
    (parseI64 "zzz" = none ∧ tweetIDdatetime "zzz" = none)
    ∧ tweetIDdatetime "8388608" =
        some (Int.fdiv 8388608 4194304 + 1288834974657) :=
  ⟨⟨by decide, tweet_id_decode.2.1 "zzz" (by decide)⟩,
    tweet_id_decode.2.2 "8388608" 8388608 (by decide)⟩

/-- C5: a cookie string missing `auth_token`, `_twitter_sess` or `ct0`
fails to parse with the distinct error naming that missing key, and the
string `"auth_token=A; _twitter_sess=B; ct0=C"` parses successfully and
serializes back to exactly the same string. -/
theorem cookie_missing_and_roundtrip :
    (∀ s : String,
      (mapGet "auth_token" (cookiePairs s) = none →
        cookieFromStr s = .error .AuthTokenMissing)
      ∧ ((mapGet "auth_token" (cookiePairs s)).isSome →
          mapGet "_twitter_sess" (cookiePairs s) = none →
          cookieFromStr s = .error .TwitterSessMissing)
      ∧ ((mapGet "auth_token" (cookiePairs s)).isSome →
          (mapGet "_twitter_sess" (cookiePairs s)).isSome →
          mapGet "ct0" (cookiePairs s) = none →
          cookieFromStr s = .error .Ct0Missing))
    ∧ (CookieError.AuthTokenMissing ≠ CookieError.TwitterSessMissing
        ∧ CookieError.AuthTokenMissing ≠ CookieError.Ct0Missing
        ∧ CookieError.TwitterSessMissing ≠ CookieError.Ct0Missing)
    ∧ cookieFromStr "auth_token=A; _twitter_sess=B; ct0=C" = .ok ⟨"A", "B", "C"⟩
    ∧ cookieToString ⟨"A", "B", "C"⟩ = "auth_token=A; _twitter_sess=B; ct0=C" := by
  refine ⟨fun s => ⟨fun h1 => ?_, fun h1 h2 => ?_, fun h1 h2 h3 => ?_⟩,
    by decide, by rfl, by decide⟩
  · simp [cookieFromStr, h1]
  · obtain ⟨v, hv⟩ := Option.isSome_iff_exists.mp h1
    simp [cookieFromStr, hv, h2]
  · obtain ⟨v1, hv1⟩ := Option.isSome_iff_exists.mp h1
    obtain ⟨v2, hv2⟩ := Option.isSome_iff_exists.mp h2
    simp [cookieFromStr, hv1, hv2, h3]

theorem cookie_missing_and_roundtrip_witness :
    (mapGet "auth_token" (cookiePairs "_twitter_sess=B; ct0=C") = none
      ∧ cookieFromStr "_twitter_sess=B; ct0=C" = .error .AuthTokenMissing)
    ∧ ((mapGet "auth_token" (cookiePairs "auth_token=A; ct0=C")).isSome
      ∧ mapGet "_twitter_sess" (cookiePairs "auth_token=A; ct0=C") = none
      ∧ cookieFromStr "auth_token=A; ct0=C" = .error .TwitterSessMissing)
    ∧ ((mapGet "auth_token" (cookiePairs "auth_token=A; _twitter_sess=B")).isSome
      ∧ (mapGet "_twitter_sess" (cookiePairs "auth_token=A; _twitter_sess=B")).isSome
      ∧ mapGet "ct0" (cookiePairs "auth_token=A; _twitter_sess=B") = none
      ∧ cookieFromStr "auth_token=A; _twitter_sess=B" = .error .Ct0Missing) :=
  ⟨⟨by decide, (cookie_missing_and_roundtrip.1 _).1 (by decide)⟩,
    ⟨by decide, by decide,
      (cookie_missing_and_roundtrip.1 _).2.1 (by decide) (by decide)⟩,
    ⟨by decide, by decide, by decide,
      (cookie_missing_and_roundtrip.1 _).2.2 (by decide) (by decide) (by decide)⟩⟩

/-- C7: a caption-record sequence of length 0 produces no output events
at all — not even the XML declaration — and reports success. -/
theorem writeXml_empty (chats : List Chat) (h : chats.length = 0) :
    writeXml chats = .ok [] := by
  simp [writeXml, h]

theorem writeXml_empty_witness :
    ([] : List Chat).length = 0 ∧ writeXml [] = .ok [] :=
  ⟨rfl, writeXml_empty [] rfl⟩

theorem chatStarts_append (l1 l2 : List XEvent) :
    chatStarts (l1 ++ l2) = chatStarts l1 ++ chatStarts l2 := by
  simp [chatStarts]

theorem chatStarts_flatMap (l : List (Nat × Chat)) :
    chatStarts (l.flatMap chatBlock)
      = (l.filter fun p => !(p.2.content == "")).map fun p => chatAttrs p.1 p.2 := by
  induction l with
  | nil => rfl
  | cons a l ih =>
    rw [List.flatMap_cons, chatStarts_append, ih]
    by_cases h : a.2.content = "" <;>
      simp [chatBlock, chatStarts, List.filter_cons, h]

theorem xmlEvents_cons (c : Chat) (cs : List Chat) :
    xmlEvents (c :: cs)
      = [.decl "1.0" "utf-8", .startElem "packet" [],
          .emptyElem "thread"
            [("last_res", toString ((c :: cs).length - 1)), ("ticket", "")],
          .emptyElem "view_counter" [("video", "0")]]
        ++ chatLoopEvents (c :: cs) ++ [.endElem "packet"] := by
  simp [xmlEvents, writeXml]

/-- C8: a record with empty body text is skipped but still consumes its
1-based position, so the `no` attribute reflects position in the full
sequence; in particular the concrete 3-record sequence whose 2nd record
has empty body text emits exactly 2 `chat` elements, carrying `no="1"`
and `no="3"`. -/
theorem writeXml_skip_empty :
    (∀ chats : List Chat,
      chatStarts (xmlEvents chats)
        = (chats.enum.filter fun p => !(p.2.content == "")).map
            fun p => chatAttrs p.1 p.2)
    ∧ chatStarts (xmlEvents
        [⟨10, 0, none, none, none, "a"⟩, ⟨20, 5, none, none, none, ""⟩,
          ⟨30, 7, none, none, none, "b"⟩])
      = [[("date", "10"), ("vpos", "0"), ("no", "1")],
          [("date", "30"), ("vpos", "7"), ("no", "3")]] := by
  constructor
  · intro chats
    cases chats with
    | nil => rfl
    | cons c cs =>
      rw [xmlEvents_cons, chatStarts_append, chatStarts_append, chatLoopEvents,
        chatStarts_flatMap]
      simp [chatStarts]
  · decide

/-- C9 (code evidence): a record carrying both a mail-flag value and an
identifier produces two attributes that share the name `mail` — the
identifier is not written under its own distinct attribute name. -/
theorem identifier_attr_shares_mail_name :
    chatStarts (xmlEvents [⟨5, 2, some "u", some "999", some "184", "hi"⟩])
      = [[("date", "5"), ("vpos", "2"), ("no", "1"), ("user_id", "u"),
          ("mail", "184"), ("mail", "999")]]
    ∧ ((chatAttrs 0 ⟨5, 2, some "u", some "999", some "184", "hi"⟩).map
        Prod.fst).count "mail" = 2
    ∧ ∀ kv ∈ chatAttrs 0 ⟨5, 2, some "u", some "999", some "184", "hi"⟩,
        kv.2 = "999" → kv.1 = "mail" := by
  refine ⟨by decide, by decide, by decide⟩

/-- C4 (counterexample): `cleanup "#tag hello http://example.com world"`
is not `"hello world"` — removing the URL leaves the whitespace on both
of its sides in place, and only leading/trailing whitespace is trimmed,
so two adjacent spaces remain between `hello` and `world`. -/
theorem cleanup_example_cex :
    cleanup "#tag hello http://example.com world" ≠ "hello world" := by decide

/-- C4 (amended): the cleanup function applied to
`"#tag hello http://example.com world"` returns exactly
`"hello  world"`, with two consecutive spaces where the URL was removed. -/
theorem cleanup_example :
    cleanup "#tag hello http://example.com world" = "hello  world" := by decide

/-! ### Cookie values containing an equals sign (claim C10) -/

theorem splitChar_ne_nil (c : Char) (l : List Char) : splitChar c l ≠ [] := by
  cases l with
  | nil => simp [splitChar]
  | cons x xs =>
    by_cases h : x = c
    · simp [splitChar, h]
    · simp only [splitChar, if_neg h]
      cases splitChar c xs <;> simp

theorem not_mem_of_mem_splitChar {c : Char} {l : List Char} {p : List Char}
    (hp : p ∈ splitChar c l) : c ∉ p := by
  induction l generalizing p with
  | nil =>
    simp [splitChar] at hp
    simp [hp]
  | cons x xs ih =>
    by_cases h : x = c
    · rw [splitChar, if_pos h] at hp
      rcases List.mem_cons.mp hp with h1 | h1
      · simp [h1]
      · exact ih h1
    · rw [splitChar, if_neg h] at hp
      cases hq : splitChar c xs with
      | nil => exact absurd hq (splitChar_ne_nil c xs)
      | cons q qs =>
        rw [hq] at hp
        rcases List.mem_cons.mp hp with h1 | h1
        · subst h1
          intro hmem
          rcases List.mem_cons.mp hmem with h2 | h2
          · exact h (h2.symm)
          · exact ih (hq ▸ List.mem_cons_self q qs) h2
        · exact ih (hq ▸ List.mem_cons.mpr (Or.inr h1))

theorem length_splitChar (c : Char) (l : List Char) :
    (splitChar c l).length = l.count c + 1 := by
  induction l with
  | nil => simp [splitChar]
  | cons x xs ih =>
    by_cases h : x = c
    · simp [splitChar, h, List.count_cons, ih]
    · rw [splitChar, if_neg h]
      cases hq : splitChar c xs with
      | nil => exact absurd hq (splitChar_ne_nil c xs)
      | cons q qs =>
        rw [hq] at ih
        simp only [List.length_cons] at ih ⊢
        simp only [List.count_cons, beq_iff_eq, if_neg h]
        omega

theorem sum_counts_splitChar {c d : Char} (hdc : d ≠ c) (l : List Char) :
    ((splitChar c l).map (List.count d)).sum = l.count d := by
  induction l with
  | nil => simp [splitChar]
  | cons x xs ih =>
    by_cases h : x = c
    · subst h
      rw [splitChar, if_pos rfl]
      simp [List.count_cons, hdc, ih]
    · rw [splitChar, if_neg h]
      cases hq : splitChar c xs with
      | nil => exact absurd hq (splitChar_ne_nil c xs)
      | cons q qs =>
        rw [hq] at ih
        simp only [List.map_cons, List.sum_cons] at ih ⊢
        by_cases hxd : x = d <;> simp only [List.count_cons, beq_iff_eq,
          if_pos, if_neg, hxd, if_true, if_false] <;> omega

theorem joinEq_cons (p : List Char) (ps : List (List Char)) (h : ps ≠ []) :
    joinEq (p :: ps) = p ++ '=' :: joinEq ps := by
  cases ps with
  | nil => exact absurd rfl h
  | cons q qs => rfl

theorem joinEq_splitChar (l : List Char) : joinEq (splitChar '=' l) = l := by
  induction l with
  | nil => rfl
  | cons x xs ih =>
    by_cases h : x = '='
    · subst h
      rw [splitChar, if_pos rfl,
        joinEq_cons _ _ (splitChar_ne_nil '=' xs), ih]
      rfl
    · rw [splitChar, if_neg h]
      cases hq : splitChar '=' xs with
      | nil => exact absurd hq (splitChar_ne_nil '=' xs)
      | cons q qs =>
        rw [hq] at ih
        cases qs with
        | nil => simpa [joinEq] using congrArg (x :: ·) ih
        | cons r rs =>
          rw [joinEq_cons _ _ (by simp)] at ih ⊢
          simpa using congrArg (x :: ·) ih

theorem count_trimmed_le (d : Char) (p : List Char) :
    (trimEndSemi (trimL p)).count d ≤ p.count d := by
  have h1 : ∀ (w : Char → Bool) (l : List Char),
      (l.dropWhile w).count d ≤ l.count d :=
    fun w l => (List.dropWhile_sublist w).count_le d
  calc (trimEndSemi (trimL p)).count d
      ≤ (trimL p).count d := by
        rw [trimEndSemi, List.count_reverse]
        exact Nat.le_trans (h1 _ _) (by rw [List.count_reverse])
    _ ≤ p.count d := by
        rw [trimL, List.count_reverse]
        exact Nat.le_trans (h1 _ _) (by rw [List.count_reverse]; exact h1 _ _)

theorem mapGet_mem {k v : String} :
    ∀ {prs : List (String × String)}, mapGet k prs = some v → (k, v) ∈ prs := by
  intro prs
  induction prs with
  | nil => intro h; exact absurd h (by simp [mapGet])
  | cons kv rest ih =>
    intro h
    rw [mapGet] at h
    cases hr : mapGet k rest with
    | some v2 =>
      rw [hr] at h
      cases h
      exact List.mem_cons.mpr (Or.inr (ih hr))
    | none =>
      rw [hr] at h
      by_cases hk : kv.1 = k
      · rw [if_pos hk] at h
        cases h
        exact List.mem_cons.mpr (Or.inl (by rw [← hk]))
      · rw [if_neg hk] at h
        cases h

theorem parsePiece_no_eq {p : List Char} {k v : String}
    (h : parsePiece p = some (k, v)) : '=' ∉ k.data ∧ '=' ∉ v.data := by
  rw [parsePiece] at h
  cases hs : splitChar '=' (trimEndSemi (trimL p)) with
  | nil => rw [hs] at h; cases h
  | cons a rest =>
    cases rest with
    | nil => rw [hs] at h; cases h
    | cons b rest2 =>
      rw [hs] at h
      cases h
      exact ⟨not_mem_of_mem_splitChar (hs ▸ List.mem_cons_self _ _),
        not_mem_of_mem_splitChar
          (hs ▸ List.mem_cons.mpr (Or.inr (List.mem_cons_self _ _)))⟩

theorem parsePiece_one_eq {p : List Char} {kv : String × String}
    (h : parsePiece p = some kv) : 1 ≤ p.count '=' := by
  rw [parsePiece] at h
  cases hs : splitChar '=' (trimEndSemi (trimL p)) with
  | nil => rw [hs] at h; cases h
  | cons a rest =>
    cases rest with
    | nil => rw [hs] at h; cases h
    | cons b rest2 =>
      have hlen := length_splitChar '=' (trimEndSemi (trimL p))
      rw [hs] at hlen
      simp only [List.length_cons] at hlen
      have := count_trimmed_le '=' p
      omega

theorem sum_three_le {α : Type} [DecidableEq α] (f : α → Nat) (P : List α)
    (p q r : α) (hp : p ∈ P) (hq : q ∈ P) (hr : r ∈ P)
    (hpq : p ≠ q) (hpr : p ≠ r) (hqr : q ≠ r) :
    f p + f q + f r ≤ (P.map f).sum := by
  have e1 : (P.map f).sum = f p + ((P.erase p).map f).sum := by
    have h0 := ((List.perm_cons_erase hp).map f).sum_eq
    simpa using h0
  have hq1 : q ∈ P.erase p := (List.mem_erase_of_ne fun h => hpq h.symm).mpr hq
  have hr1 : r ∈ P.erase p := (List.mem_erase_of_ne fun h => hpr h.symm).mpr hr
  have e2 : ((P.erase p).map f).sum
      = f q + (((P.erase p).erase q).map f).sum := by
    have h0 := ((List.perm_cons_erase hq1).map f).sum_eq
    simpa using h0
  have hr2 : r ∈ (P.erase p).erase q :=
    (List.mem_erase_of_ne fun h => hqr h.symm).mpr hr1
  have e3 : f r ≤ (((P.erase p).erase q).map f).sum :=
    List.single_le_sum (fun _ _ => Nat.zero_le _) _
      (List.mem_map.mpr ⟨r, hr2, rfl⟩)
  omega

theorem count_cookieToString (c : Cookie)
    (h1 : '=' ∉ c.auth_token.data) (h2 : '=' ∉ c.twitter_sess.data)
    (h3 : '=' ∉ c.ct0.data) : (cookieToString c).data.count '=' = 3 := by
  have e : (cookieToString c).data
      = "auth_token=".data ++ c.auth_token.data ++ "; _twitter_sess=".data
        ++ c.twitter_sess.data ++ "; ct0=".data ++ c.ct0.data := by
    simp [cookieToString]
  rw [e]
  simp only [List.count_append]
  rw [List.count_eq_zero.mpr h1, List.count_eq_zero.mpr h2,
    List.count_eq_zero.mpr h3]
  decide

theorem cookieFromStr_ok_fields {s : String} {c : Cookie}
    (h : cookieFromStr s = .ok c) :
    mapGet "auth_token" (cookiePairs s) = some c.auth_token
    ∧ mapGet "_twitter_sess" (cookiePairs s) = some c.twitter_sess
    ∧ mapGet "ct0" (cookiePairs s) = some c.ct0 := by
  rw [cookieFromStr] at h
  cases ha : mapGet "auth_token" (cookiePairs s) with
  | none => rw [ha] at h; cases h
  | some va =>
    rw [ha] at h
    cases hb : mapGet "_twitter_sess" (cookiePairs s) with
    | none => rw [hb] at h; cases h
    | some vb =>
      rw [hb] at h
      cases hc : mapGet "ct0" (cookiePairs s) with
      | none => rw [hc] at h; cases h
      | some vc =>
        rw [hc] at h
        cases h
        exact ⟨rfl, rfl, rfl⟩

/-- C10 (counterexample): at the claim's own example input `"ct0=a=b"`,
parsing does not succeed — the other two required keys are absent, so it
fails with the auth-token error. -/
theorem cookie_eq_value_cex :
    cookieFromStr "ct0=a=b" = .error .AuthTokenMissing := by rfl

/-- C10 (amended): for every cookie string on which parsing succeeds and
in which the piece supplying one of the three required keys has a value
containing `=` (the piece splits into at least three fragments), the map
stores for that key only the fragment between the first and second `=`
of the piece — the portion of the value before its first `=`, itself
free of `=` — and serializing the parsed cookie does not reproduce the
original string. -/
theorem cookie_eq_in_value (s : String) (c : Cookie)
    (p k v1 v2 : List Char) (rest : List (List Char))
    (hp : p ∈ splitChar ';' s.data)
    (hsplit : splitChar '=' (trimEndSemi (trimL p)) = k :: v1 :: v2 :: rest)
    (hk : (⟨k⟩ : String) = "auth_token" ∨ (⟨k⟩ : String) = "_twitter_sess"
      ∨ (⟨k⟩ : String) = "ct0")
    (hok : cookieFromStr s = .ok c) :
    parsePiece p = some (⟨k⟩, ⟨v1⟩)
    ∧ '=' ∉ v1
    ∧ trimEndSemi (trimL p) = k ++ '=' :: v1 ++ '=' :: joinEq (v2 :: rest)
    ∧ cookieToString c ≠ s := by
  have hparse : parsePiece p = some (⟨k⟩, ⟨v1⟩) := by rw [parsePiece, hsplit]
  have hv1 : '=' ∉ v1 :=
    not_mem_of_mem_splitChar (p := v1) (by rw [hsplit]; simp)
  have hjoin : trimEndSemi (trimL p)
      = k ++ '=' :: v1 ++ '=' :: joinEq (v2 :: rest) := by
    conv_lhs => rw [← joinEq_splitChar (trimEndSemi (trimL p))]
    rw [hsplit, joinEq_cons _ _ (by simp), joinEq_cons _ _ (by simp)]
    simp
  refine ⟨hparse, hv1, hjoin, ?_⟩
  obtain ⟨ha, hb, hc⟩ := cookieFromStr_ok_fields hok
  obtain ⟨pa, hpaP, hpaparse⟩ := List.mem_filterMap.mp (mapGet_mem ha)
  obtain ⟨pb, hpbP, hpbparse⟩ := List.mem_filterMap.mp (mapGet_mem hb)
  obtain ⟨pc, hpcP, hpcparse⟩ := List.mem_filterMap.mp (mapGet_mem hc)
  have hcount3 : (cookieToString c).data.count '=' = 3 :=
    count_cookieToString c (parsePiece_no_eq hpaparse).2
      (parsePiece_no_eq hpbparse).2 (parsePiece_no_eq hpcparse).2
  have hcountp : 2 ≤ p.count '=' := by
    have hlen := length_splitChar '=' (trimEndSemi (trimL p))
    rw [hsplit] at hlen
    simp only [List.length_cons] at hlen
    have := count_trimmed_le '=' p
    omega
  have hdiff : ∀ (q r : List Char) (kq kr vq vr : String),
      parsePiece q = some (kq, vq) → parsePiece r = some (kr, vr) →
      kq ≠ kr → q ≠ r := by
    intro q r kq kr vq vr hq hr hne heqr
    rw [heqr, hr] at hq
    cases hq
    exact hne rfl
  have hsum4 : 4 ≤ ((splitChar ';' s.data).map (List.count '=')).sum := by
    rcases hk with hk | hk | hk
    · have h1 := sum_three_le (List.count '=') _ p pb pc hp hpbP hpcP
        (hdiff _ _ _ _ _ _ hparse hpbparse (by rw [hk]; decide))
        (hdiff _ _ _ _ _ _ hparse hpcparse (by rw [hk]; decide))
        (hdiff _ _ _ _ _ _ hpbparse hpcparse (by decide))
      have h2 := parsePiece_one_eq hpbparse
      have h3 := parsePiece_one_eq hpcparse
      omega
    · have h1 := sum_three_le (List.count '=') _ p pa pc hp hpaP hpcP
        (hdiff _ _ _ _ _ _ hparse hpaparse (by rw [hk]; decide))
        (hdiff _ _ _ _ _ _ hparse hpcparse (by rw [hk]; decide))
        (hdiff _ _ _ _ _ _ hpaparse hpcparse (by decide))
      have h2 := parsePiece_one_eq hpaparse
      have h3 := parsePiece_one_eq hpcparse
      omega
    · have h1 := sum_three_le (List.count '=') _ p pa pb hp hpaP hpbP
        (hdiff _ _ _ _ _ _ hparse hpaparse (by rw [hk]; decide))
        (hdiff _ _ _ _ _ _ hparse hpbparse (by rw [hk]; decide))
        (hdiff _ _ _ _ _ _ hpaparse hpbparse (by decide))
      have h2 := parsePiece_one_eq hpaparse
      have h3 := parsePiece_one_eq hpbparse
      omega
  have hs4 : 4 ≤ s.data.count '=' := by
    rw [← sum_counts_splitChar (c := ';') (by decide) s.data]
    exact hsum4
  intro heqs
  rw [congrArg String.data heqs] at hcount3
  omega

theorem cookie_eq_in_value_witness :
    ((" ct0=a=b").data ∈ splitChar ';' ("auth_token=A; _twitter_sess=B; ct0=a=b").data
      ∧ splitChar '=' (trimEndSemi (trimL (" ct0=a=b").data))
        = "ct0".data :: "a".data :: "b".data :: []
      ∧ ((⟨"ct0".data⟩ : String) = "auth_token"
        ∨ (⟨"ct0".data⟩ : String) = "_twitter_sess"
        ∨ (⟨"ct0".data⟩ : String) = "ct0")
      ∧ cookieFromStr "auth_token=A; _twitter_sess=B; ct0=a=b"
        = .ok ⟨"A", "B", "a"⟩)
    ∧ (parsePiece (" ct0=a=b").data = some (⟨"ct0".data⟩, ⟨"a".data⟩)
      ∧ '=' ∉ "a".data
      ∧ trimEndSemi (trimL (" ct0=a=b").data)
        = "ct0".data ++ '=' :: "a".data ++ '=' :: joinEq ("b".data :: [])
      ∧ cookieToString ⟨"A", "B", "a"⟩ ≠ "auth_token=A; _twitter_sess=B; ct0=a=b") :=
  ⟨⟨by decide, by decide, by decide, by rfl⟩,
    cookie_eq_in_value "auth_token=A; _twitter_sess=B; ct0=a=b" ⟨"A", "B", "a"⟩
      (" ct0=a=b").data "ct0".data "a".data "b".data []
      (by decide) (by decide) (by decide) (by rfl)⟩

end Twinicodo
